import Mathlib

/-!
Verification of the Univo backend services against their natural-language
specification.  Each Python function relevant to a claim is shallowly
embedded as an executable Lean definition; machine integers are modelled
as `Int`/`Nat` with explicit `%` where the source relies on wrap-around,
randomness becomes explicit oracle parameters, and exceptions become
`Option`/`Except` results.
-/

namespace Univo

/-! ## Blockchain service: reputation system
Embedding of `ReputationSystem.calculate_reputation`
(`src/backend/services/blockchain_service.py`).  The mutable
`self.reputation_scores` dictionary is modelled as an association list that
is threaded through the call.  `last_updated` carries no arithmetic content
and is omitted from the record. -/

structure ReputationRecord where
  score : Int
  meeting_count : Nat
  positive_feedback : Nat
  negative_feedback : Nat
  credentials_verified : Nat
deriving Repr, DecidableEq

/-- The record installed for an identity that has no entry yet
(score 50, all counters 0). -/
def defaultReputationRecord : ReputationRecord :=
  { score := 50, meeting_count := 0, positive_feedback := 0
    negative_feedback := 0, credentials_verified := 0 }

abbrev ReputationStore := List (String × ReputationRecord)

def lookupRep (store : ReputationStore) (identity_id : String) :
    Option ReputationRecord :=
  (store.find? (fun p => p.1 == identity_id)).map Prod.snd

/-- Result dictionary of `calculate_reputation` (the fields the claims
talk about). -/
structure ReputationResult where
  identity_id : String
  reputation_score : Int
  base_score : Int
  meeting_bonus : Int
  feedback_score : Int
  credential_bonus : Int
  statistics : ReputationRecord
deriving Repr, DecidableEq

/-- `ReputationSystem.calculate_reputation`: installs the default record if
the identity is unknown, then computes the weighted score.  Returns the
updated store together with the response. -/
def calculate_reputation (store : ReputationStore) (identity_id : String) :
    ReputationStore × ReputationResult :=
  let store' :=
    if (lookupRep store identity_id).isSome then store
    else (identity_id, defaultReputationRecord) :: store
  let reputation := (lookupRep store' identity_id).getD defaultReputationRecord
  let base_score : Int := 50
  let meeting_bonus : Int := min ((reputation.meeting_count : Int) * 2) 30
  let feedback_score : Int :=
    ((reputation.positive_feedback : Int) - (reputation.negative_feedback : Int)) * 5
  let credential_bonus : Int := min ((reputation.credentials_verified : Int) * 10) 20
  let final_score : Int :=
    max 0 (min 100 (base_score + meeting_bonus + feedback_score + credential_bonus))
  (store',
   { identity_id := identity_id
     reputation_score := final_score
     base_score := base_score
     meeting_bonus := meeting_bonus
     feedback_score := feedback_score
     credential_bonus := credential_bonus
     statistics := reputation })

theorem lookupRep_cons_self (store : ReputationStore) (i : String)
    (r : ReputationRecord) : lookupRep ((i, r) :: store) i = some r := by
  simp [lookupRep, List.find?]

/-- C1: for every identity record in the store the returned
`reputation_score` is
`max 0 (min 100 (50 + min (2*mc) 30 + 5*(pos-neg) + min (10*cv) 20))`,
and an identity with no record first gets the default record installed and
scores 50. -/
theorem calculate_reputation_spec (store : ReputationStore) (identity_id : String) :
    (∀ rep, lookupRep (calculate_reputation store identity_id).1 identity_id = some rep →
      (calculate_reputation store identity_id).2.reputation_score =
        max 0 (min 100 (50 + min (2 * (rep.meeting_count : Int)) 30
          + 5 * ((rep.positive_feedback : Int) - (rep.negative_feedback : Int))
          + min (10 * (rep.credentials_verified : Int)) 20)))
    ∧ (lookupRep store identity_id = none →
        lookupRep (calculate_reputation store identity_id).1 identity_id =
            some defaultReputationRecord
        ∧ (calculate_reputation store identity_id).2.reputation_score = 50) := by
  constructor
  · intro rep hrep
    by_cases h : (lookupRep store identity_id).isSome
    · simp only [calculate_reputation, if_pos h] at hrep ⊢
      rw [hrep]
      simp only [Option.getD_some]
      ring_nf
    · simp only [calculate_reputation, if_neg h] at hrep ⊢
      rw [lookupRep_cons_self] at hrep
      cases hrep
      rw [lookupRep_cons_self]
      norm_num [defaultReputationRecord]
  · intro hnone
    have h : ¬ ((lookupRep store identity_id).isSome = true) := by simp [hnone]
    refine ⟨?_, ?_⟩
    · simp only [calculate_reputation, if_neg h]
      exact lookupRep_cons_self store identity_id defaultReputationRecord
    · simp only [calculate_reputation, if_neg h, lookupRep_cons_self]
      norm_num [defaultReputationRecord]

/-- Witness for C1 at a concrete input: an unknown identity scores 50. -/
theorem calculate_reputation_spec_witness :
    lookupRep ([] : ReputationStore) "alice" = none
    ∧ (calculate_reputation [] "alice").2.reputation_score = 50 :=
  ⟨rfl, ((calculate_reputation_spec [] "alice").2 rfl).2⟩

/-! ## Video service: hand-gesture heuristics
Embedding of `VideoProcessingService._classify_gesture` and the five
heuristics (`src/backend/services/video_service.py`).  A landmark list is a
list of coordinate lists; the heuristics only read the y-coordinate
(`landmarks[i][1]`), modelled by `lmY` with an out-of-range default of 0
(the Python code raises there; theorems therefore carry the in-range
hypotheses 21 landmarks, each with at least 2 coordinates). -/

def lmY (landmarks : List (List ℚ)) (i : Nat) : ℚ :=
  (landmarks.getD i []).getD 1 0

def is_thumbs_up (landmarks : List (List ℚ)) : ℚ :=
  -- thumb_up: thumb tip above thumb MCP; fingers_down: index tip below joint 6
  if lmY landmarks 4 < lmY landmarks 2 ∧ lmY landmarks 8 > lmY landmarks 6
  then 0.8 else 0.2

def is_peace_sign (landmarks : List (List ℚ)) : ℚ :=
  -- index and middle extended, ring folded
  if lmY landmarks 8 < lmY landmarks 6 ∧ lmY landmarks 12 < lmY landmarks 10
      ∧ lmY landmarks 16 > lmY landmarks 14
  then 0.8 else 0.2

def is_fist (landmarks : List (List ℚ)) : ℚ :=
  if ∀ tip ∈ ([8, 12, 16, 20] : List Nat),
      lmY landmarks tip > lmY landmarks (tip - 2)
  then 0.8 else 0.2

def is_open_palm (landmarks : List (List ℚ)) : ℚ :=
  if ∀ tip ∈ ([8, 12, 16, 20] : List Nat),
      lmY landmarks tip < lmY landmarks (tip - 2)
  then 0.8 else 0.2

def is_pointing (landmarks : List (List ℚ)) : ℚ :=
  if lmY landmarks 8 < lmY landmarks 6
      ∧ ∀ tip ∈ ([12, 16, 20] : List Nat),
          lmY landmarks tip > lmY landmarks (tip - 2)
  then 0.8 else 0.2

/-- The `gestures` dictionary of `_classify_gesture`, in insertion order. -/
def gestureScores (landmarks : List (List ℚ)) : List (String × ℚ) :=
  [("thumbs_up", is_thumbs_up landmarks),
   ("peace", is_peace_sign landmarks),
   ("fist", is_fist landmarks),
   ("open_palm", is_open_palm landmarks),
   ("pointing", is_pointing landmarks)]

/-- One step of Python's `max(..., key=lambda x: x[1])`: the running best is
replaced only on a strictly greater key, so the first maximal item wins. -/
def pyMaxStep (best y : String × ℚ) : String × ℚ :=
  if y.2 > best.2 then y else best

/-- Python's `max(items, key=lambda x: x[1])` over an association list:
`none` models the `ValueError` on an empty sequence. -/
def pyMaxBySnd (l : List (String × ℚ)) : Option (String × ℚ) :=
  match l with
  | [] => none
  | x :: rest => some (rest.foldl pyMaxStep x)

structure GestureResult where
  name : String
  confidence : ℚ
  all_scores : List (String × ℚ)
deriving Repr, DecidableEq

/-- `VideoProcessingService._classify_gesture`. -/
def classify_gesture (landmarks : List (List ℚ)) : GestureResult :=
  match pyMaxBySnd (gestureScores landmarks) with
  | none => { name := "unknown", confidence := 0, all_scores := [] }
  | some best =>
    { name := if best.2 > 0.5 then best.1 else "unknown"
      confidence := best.2
      all_scores := gestureScores landmarks }

theorem pyMaxFold_mem (rest : List (String × ℚ)) :
    ∀ x, rest.foldl pyMaxStep x ∈ x :: rest := by
  induction rest with
  | nil => intro x; simp
  | cons y t ih =>
    intro x
    simp only [List.foldl_cons]
    have hxy : pyMaxStep x y = x ∨ pyMaxStep x y = y := by
      unfold pyMaxStep; split <;> simp
    have h := ih (pyMaxStep x y)
    rcases List.mem_cons.1 h with h' | h'
    · rcases hxy with h'' | h''
      · exact List.mem_cons.2 (Or.inl (h'.trans h''))
      · exact List.mem_cons.2 (Or.inr (List.mem_cons.2 (Or.inl (h'.trans h''))))
    · exact List.mem_cons.2 (Or.inr (List.mem_cons.2 (Or.inr h')))

theorem pyMaxFold_ge (rest : List (String × ℚ)) :
    ∀ x, ∀ p ∈ x :: rest, p.2 ≤ (rest.foldl pyMaxStep x).2 := by
  induction rest with
  | nil =>
    intro x p hp
    rcases List.mem_cons.1 hp with rfl | hp
    · simp
    · simp at hp
  | cons y t ih =>
    intro x p hp
    simp only [List.foldl_cons]
    have hb : x.2 ≤ (pyMaxStep x y).2 ∧ y.2 ≤ (pyMaxStep x y).2 := by
      unfold pyMaxStep
      split
      · exact ⟨le_of_lt (by assumption), le_refl _⟩
      · exact ⟨le_refl _, le_of_not_lt (by assumption)⟩
    rcases List.mem_cons.1 hp with h1 | hp'
    · rw [h1]
      exact le_trans hb.1 (ih (pyMaxStep x y) _ (List.mem_cons_self _ _))
    rcases List.mem_cons.1 hp' with h1 | hp''
    · rw [h1]
      exact le_trans hb.2 (ih (pyMaxStep x y) _ (List.mem_cons_self _ _))
    · exact ih (pyMaxStep x y) p (List.mem_cons_of_mem _ hp'')

theorem pyMaxBySnd_spec (l : List (String × ℚ)) (b : String × ℚ)
    (h : pyMaxBySnd l = some b) : b ∈ l ∧ ∀ p ∈ l, p.2 ≤ b.2 := by
  match l with
  | [] => simp [pyMaxBySnd] at h
  | x :: rest =>
    simp only [pyMaxBySnd, Option.some.injEq] at h
    subst h
    exact ⟨pyMaxFold_mem rest x, pyMaxFold_ge rest x⟩

theorem gestureScores_sub (landmarks : List (List ℚ)) :
    ∀ p ∈ gestureScores landmarks, p.2 = 0.2 ∨ p.2 = 0.8 := by
  intro p hp
  simp only [gestureScores, List.mem_cons, List.not_mem_nil, or_false] at hp
  rcases hp with rfl | rfl | rfl | rfl | rfl <;>
    · simp only [is_thumbs_up, is_peace_sign, is_fist, is_open_palm, is_pointing]
      split
      · right; rfl
      · left; rfl

/-- C8: every gesture heuristic scores 0.2 or 0.8; `_classify_gesture`
returns a maximum-scoring heuristic's name and score when that score
exceeds 0.5 and the name `unknown` otherwise, so the name is `unknown`
exactly when no heuristic scores 0.8. -/
theorem classify_gesture_spec (landmarks : List (List ℚ))
    (h21 : 21 ≤ landmarks.length)
    (hco : ∀ p ∈ landmarks, 2 ≤ p.length) :
    (∀ p ∈ gestureScores landmarks, p.2 = 0.2 ∨ p.2 = 0.8)
    ∧ (classify_gesture landmarks).all_scores = gestureScores landmarks
    ∧ (∃ best ∈ gestureScores landmarks,
        (∀ p ∈ gestureScores landmarks, p.2 ≤ best.2)
        ∧ (classify_gesture landmarks).confidence = best.2
        ∧ (classify_gesture landmarks).name =
            (if best.2 > 0.5 then best.1 else "unknown"))
    ∧ ((classify_gesture landmarks).name = "unknown" ↔
        ∀ p ∈ gestureScores landmarks, p.2 ≠ 0.8) := by
  have hrange := gestureScores_sub landmarks
  obtain ⟨best, hbest⟩ : ∃ b, pyMaxBySnd (gestureScores landmarks) = some b :=
    ⟨_, rfl⟩
  obtain ⟨hbest_mem, hbest_ge⟩ := pyMaxBySnd_spec _ _ hbest
  have hclass : classify_gesture landmarks =
      { name := if best.2 > 0.5 then best.1 else "unknown"
        confidence := best.2
        all_scores := gestureScores landmarks } := by
    unfold classify_gesture
    rw [hbest]
  have hname : ∀ p ∈ gestureScores landmarks, p.1 ≠ "unknown" := by
    intro p hp
    simp only [gestureScores, List.mem_cons, List.not_mem_nil, or_false] at hp
    rcases hp with rfl | rfl | rfl | rfl | rfl <;> simp
  refine ⟨hrange, by rw [hclass], ⟨best, hbest_mem, hbest_ge,
    by rw [hclass], by rw [hclass]⟩, ?_, ?_⟩
  · intro hu p hp he
    have h1 : p.2 ≤ best.2 := hbest_ge p hp
    have h2 : (0.5 : ℚ) < best.2 := by rw [he] at h1; linarith
    rw [hclass] at hu
    simp only [h2, if_pos] at hu
    exact hname _ hbest_mem hu
  · intro hall
    have h2 : best.2 = 0.2 := by
      rcases hrange _ hbest_mem with h | h
      · exact h
      · exact absurd h (hall _ hbest_mem)
    rw [hclass]
    simp only [h2]
    norm_num

/-- Witness for C8 at a concrete 21-landmark input (all coordinates 0):
every comparison is strict, so every heuristic scores 0.2 and the
classified name is `unknown`. -/
theorem classify_gesture_spec_witness :
    (classify_gesture (List.replicate 21 [(0 : ℚ), 0, 0])).name = "unknown" :=
  ((classify_gesture_spec (List.replicate 21 [(0 : ℚ), 0, 0])
      (by norm_num)
      (by intro p hp; rcases List.eq_of_mem_replicate hp with rfl; norm_num)).2.2.2).mpr
    (by
      intro p hp
      simp only [gestureScores, is_thumbs_up, is_peace_sign, is_fist,
        is_open_palm, is_pointing, lmY, List.mem_cons, List.not_mem_nil,
        or_false] at hp
      rcases hp with rfl | rfl | rfl | rfl | rfl <;> norm_num)

/-! ## AI service: emotion analysis
Embedding of the per-face post-processing in `AIService.analyze_emotions`
(`src/backend/services/ai_service.py`).  The untrained emotion model's
softmax output for a face is an oracle input (a list of 7 scores).  The
Python loop `for i, score in enumerate(emotion_scores)` paired with
`self.emotion_labels[i]` equals `emotion_labels.zip scores` whenever the
score vector is no longer than the label list; `list.sort(key=...,
reverse=True)` is a stable descending sort, modelled by insertion sort
that keeps earlier elements first among equal confidences. -/

def emotion_labels : List String :=
  ["angry", "disgust", "fear", "happy", "neutral", "sad", "surprise"]

def insertDesc (x : String × ℚ) : List (String × ℚ) → List (String × ℚ)
  | [] => [x]
  | y :: t => if y.2 ≤ x.2 then x :: y :: t else y :: insertDesc x t

def sortDesc : List (String × ℚ) → List (String × ℚ)
  | [] => []
  | x :: t => insertDesc x (sortDesc t)

structure FaceEmotions where
  emotions : List (String × ℚ)
  dominant_emotion : String
  confidence : ℚ
deriving Repr, DecidableEq

/-- The body of the `for (x, y, w, h) in faces` loop: build the
label/confidence pairs, sort by confidence descending, keep the top 3,
and read the dominant emotion off the head. -/
def processFace (scores : List ℚ) : FaceEmotions :=
  { emotions := (sortDesc (emotion_labels.zip scores)).take 3
    dominant_emotion := ((sortDesc (emotion_labels.zip scores)).getD 0 ("", 0)).1
    confidence := ((sortDesc (emotion_labels.zip scores)).getD 0 ("", 0)).2 }

/-- `AIService.analyze_emotions` response: `faces_detected` and the
per-face `emotions` entries. -/
def analyze_emotions (faces : List (List ℚ)) : Nat × List FaceEmotions :=
  (faces.length, faces.map processFace)

theorem mem_insertDesc {x y : String × ℚ} :
    ∀ {l}, y ∈ insertDesc x l ↔ y = x ∨ y ∈ l := by
  intro l
  induction l with
  | nil => simp [insertDesc]
  | cons z t ih =>
    simp only [insertDesc]
    split
    · simp only [List.mem_cons]
    · simp only [List.mem_cons, ih]
      tauto

theorem length_insertDesc (x : String × ℚ) :
    ∀ l, (insertDesc x l).length = l.length + 1 := by
  intro l
  induction l with
  | nil => rfl
  | cons z t ih =>
    simp only [insertDesc]
    split
    · simp
    · simp only [List.length_cons, ih]

theorem length_sortDesc : ∀ l, (sortDesc l).length = l.length := by
  intro l
  induction l with
  | nil => rfl
  | cons x t ih => simp only [sortDesc, length_insertDesc, ih, List.length_cons]

theorem mem_sortDesc {y : String × ℚ} : ∀ {l}, y ∈ sortDesc l ↔ y ∈ l := by
  intro l
  induction l with
  | nil => simp [sortDesc]
  | cons x t ih => simp only [sortDesc, mem_insertDesc, ih, List.mem_cons]

theorem pairwise_insertDesc {x : String × ℚ} {l : List (String × ℚ)}
    (h : List.Pairwise (fun a b => b.2 ≤ a.2) l) :
    List.Pairwise (fun a b => b.2 ≤ a.2) (insertDesc x l) := by
  induction l with
  | nil => simp [insertDesc]
  | cons z t ih =>
    rcases List.pairwise_cons.1 h with ⟨hz, ht⟩
    simp only [insertDesc]
    by_cases hc : z.2 ≤ x.2
    · rw [if_pos hc]
      refine List.pairwise_cons.2 ⟨?_, h⟩
      intro b hb
      rcases List.mem_cons.1 hb with h2 | h2
      · rw [h2]; exact hc
      · exact le_trans (hz b h2) hc
    · rw [if_neg hc]
      refine List.pairwise_cons.2 ⟨?_, ih ht⟩
      intro b hb
      rcases mem_insertDesc.1 hb with h2 | h2
      · rw [h2]; exact le_of_not_le hc
      · exact hz b h2

theorem pairwise_sortDesc (l : List (String × ℚ)) :
    List.Pairwise (fun a b => b.2 ≤ a.2) (sortDesc l) := by
  induction l with
  | nil => simp [sortDesc]
  | cons x t ih => exact pairwise_insertDesc ih

/-- C7: for every detected face the returned `emotions` list holds at most
3 entries drawn from the 7 labels, sorted by non-increasing confidence;
`dominant_emotion` carries the maximal confidence; and `faces_detected` is
the number of faces. -/
theorem analyze_emotions_spec (faces : List (List ℚ))
    (hlen : ∀ s ∈ faces, s.length = 7) :
    (analyze_emotions faces).1 = faces.length
    ∧ (analyze_emotions faces).2.length = faces.length
    ∧ ∀ s ∈ faces,
        (processFace s).emotions.length ≤ 3
        ∧ (∀ e ∈ (processFace s).emotions,
            e ∈ emotion_labels.zip s ∧ e.1 ∈ emotion_labels)
        ∧ List.Pairwise (fun a b => b.2 ≤ a.2) (processFace s).emotions
        ∧ ((processFace s).dominant_emotion, (processFace s).confidence) ∈
            emotion_labels.zip s
        ∧ (∀ p ∈ emotion_labels.zip s, p.2 ≤ (processFace s).confidence) := by
  refine ⟨rfl, by simp [analyze_emotions], ?_⟩
  intro s hs
  have h7 : s.length = 7 := hlen s hs
  have hzlen : (emotion_labels.zip s).length = 7 := by
    rw [List.length_zip, h7]
    rfl
  have hslen : (sortDesc (emotion_labels.zip s)).length = 7 := by
    rw [length_sortDesc, hzlen]
  cases hsd : sortDesc (emotion_labels.zip s) with
  | nil => rw [hsd] at hslen; simp at hslen
  | cons hd tl =>
    have hpf : processFace s =
        { emotions := (hd :: tl).take 3
          dominant_emotion := hd.1
          confidence := hd.2 } := by
      unfold processFace
      rw [hsd]
      rfl
    have hpw : List.Pairwise (fun a b => b.2 ≤ a.2) (hd :: tl) := by
      rw [← hsd]; exact pairwise_sortDesc _
    have hmem : ∀ e, e ∈ hd :: tl ↔ e ∈ emotion_labels.zip s := by
      intro e
      rw [← hsd, mem_sortDesc]
    refine ⟨?_, ?_, ?_, ?_, ?_⟩
    · rw [hpf]
      simp only [List.length_take]
      omega
    · intro e he
      rw [hpf] at he
      have h1 : e ∈ emotion_labels.zip s :=
        (hmem e).1 (List.mem_of_mem_take he)
      refine ⟨h1, ?_⟩
      obtain ⟨a, b⟩ := e
      exact (List.of_mem_zip h1).1
    · rw [hpf]
      exact hpw.sublist (List.take_sublist 3 (hd :: tl))
    · rw [hpf]
      exact (hmem hd).1 (List.mem_cons_self hd tl)
    · intro p hp
      rw [hpf]
      rcases List.mem_cons.1 ((hmem p).2 hp) with h1 | h1
      · rw [h1]
      · exact (List.pairwise_cons.1 hpw).1 p h1

/-- Witness for C7 at a single concrete face with 7 concrete scores. -/
theorem analyze_emotions_spec_witness :
    (analyze_emotions [[(0.1 : ℚ), 0.2, 0.3, 0.05, 0.15, 0.1, 0.1]]).1 =
      [[(0.1 : ℚ), 0.2, 0.3, 0.05, 0.15, 0.1, 0.1]].length :=
  (analyze_emotions_spec [[(0.1 : ℚ), 0.2, 0.3, 0.05, 0.15, 0.1, 0.1]]
    (by intro s hs; rcases List.mem_singleton.1 hs with rfl; rfl)).1

/-! ## REST endpoint error handling
Embedding of the `try/except` wrappers in `src/backend/main.py`.  A service
call either succeeds with a value or raises an exception carrying a message
(`Except String α`); each endpoint converts a raised exception into an
`HTTPException` with its fixed status code and `str(e)` as detail, while the
`get_current_user` dependency (token validation) uses the constant detail
string `"Invalid authentication credentials"`. -/

structure HTTPExc where
  status_code : Nat
  detail : String
deriving Repr, DecidableEq

/-- The common endpoint body: return the service result unchanged, or turn
any raised exception into `HTTPException(status, str(e))`. -/
def wrapEndpoint {α : Type} (status : Nat) (call : Except String α) :
    Except HTTPExc α :=
  match call with
  | Except.ok v => Except.ok v
  | Except.error e => Except.error ⟨status, e⟩

/-- `get_current_user`: token validation maps any exception to a 401 with a
constant detail string. -/
def get_current_user {α : Type} (call : Except String α) : Except HTTPExc α :=
  match call with
  | Except.ok v => Except.ok v
  | Except.error _ => Except.error ⟨401, "Invalid authentication credentials"⟩

/-- The REST endpoints of `main.py` with the status code each one uses for
a caught exception. -/
def endpointErrorStatus : List (String × Nat) :=
  [("login", 401), ("register", 400),
   ("transcribe_audio", 500), ("translate_text", 500),
   ("summarize_meeting", 500), ("analyze_emotions", 500),
   ("enhance_video", 500), ("remove_background", 500),
   ("recognize_gestures", 500), ("generate_quantum_keys", 500),
   ("quantum_encrypt", 500), ("create_blockchain_identity", 500),
   ("verify_credential", 500), ("process_neural_signals", 500),
   ("calibrate_neural_interface", 500), ("create_metaverse_world", 500),
   ("get_metaverse_worlds", 500), ("get_meeting_insights", 500),
   ("get_user_behavior_analysis", 500)]

/-- C5 counterexample: token validation does not report `str(e)` as the
detail; a raised exception `"boom"` yields the constant detail string. -/
theorem get_current_user_detail_counterexample :
    get_current_user (Except.error "boom" : Except String Unit) =
      Except.error ⟨401, "Invalid authentication credentials"⟩
    ∧ get_current_user (Except.error "boom" : Except String Unit) ≠
      Except.error ⟨401, "boom"⟩ := by
  refine ⟨rfl, ?_⟩
  intro h
  simp only [get_current_user, Except.error.injEq, HTTPExc.mk.injEq] at h
  exact absurd h.2 (by decide)

/-- C5 amended: every REST endpoint returns the service result unchanged on
success and an `HTTPException` with its table status and `str(e)` as detail
on failure; token validation returns 401 with the constant detail
`"Invalid authentication credentials"` instead of `str(e)`. -/
theorem endpoint_error_spec {α : Type} (name : String) (status : Nat)
    (hmem : (name, status) ∈ endpointErrorStatus)
    (call : Except String α) :
    (∀ v, call = Except.ok v → wrapEndpoint status call = Except.ok v)
    ∧ (∀ e, call = Except.error e →
        wrapEndpoint status call = Except.error ⟨status, e⟩)
    ∧ (∀ v, call = Except.ok v → get_current_user call = Except.ok v)
    ∧ (∀ e, call = Except.error e →
        get_current_user call =
          Except.error ⟨401, "Invalid authentication credentials"⟩) := by
  refine ⟨?_, ?_, ?_, ?_⟩ <;> intro x hx <;> rw [hx] <;> rfl

/-- Witness for the amended C5 at the `login` endpoint and a concrete
raised exception. -/
theorem endpoint_error_spec_witness :
    wrapEndpoint 401 (Except.error "bad password" : Except String Unit) =
      Except.error ⟨401, "bad password"⟩ :=
  (endpoint_error_spec "login" 401 (by decide)
    (Except.error "bad password")).2.1 "bad password" rfl

/-! ## WebSocket endpoint routing
Embedding of `websocket_endpoint` in `src/backend/main.py`.  A parsed
message is an association list of string fields; the three service calls
are oracle parameters.  The returned value is the payload broadcast to the
room, `none` modelling the `KeyError` that escapes the handler when a
matching `type` tag has no `data` field. -/

def msgGet (m : List (String × String)) (k : String) : Option String :=
  (m.find? (fun p => p.1 == k)).map Prod.snd

def websocket_handle (processFrame transcribeChunk processSignal : String → String)
    (message : List (String × String)) : Option (List (String × String)) :=
  if msgGet message "type" = some "video_frame" then
    (msgGet message "data").map
      (fun d => [("type", "processed_video"), ("data", processFrame d)])
  else if msgGet message "type" = some "audio_chunk" then
    (msgGet message "data").map
      (fun d => [("type", "transcription"), ("data", transcribeChunk d)])
  else if msgGet message "type" = some "neural_signal" then
    (msgGet message "data").map
      (fun d => [("type", "neural_command"), ("data", processSignal d)])
  else
    some message

/-- C6 counterexample: a `video_frame` message without a `data` field is
not routed and nothing is broadcast (the `KeyError` escapes), contradicting
the unconditional routing claim. -/
theorem websocket_handle_counterexample :
    websocket_handle (fun _ => "p") id id [("type", "video_frame")] = none
    ∧ ∀ out, websocket_handle (fun _ => "p") id id [("type", "video_frame")] ≠
        some out := by
  refine ⟨rfl, ?_⟩
  intro out h
  rw [show websocket_handle (fun _ => "p") id id [("type", "video_frame")] =
    none from rfl] at h
  exact Option.noConfusion h

/-- C6 amended: messages carrying a `data` field are routed by their `type`
tag to the matching service and broadcast with the corresponding result
tag, and every message with any other (or missing) `type` tag is broadcast
unchanged. -/
theorem websocket_handle_spec (pf tc ps : String → String)
    (m : List (String × String)) :
    (∀ d, msgGet m "type" = some "video_frame" → msgGet m "data" = some d →
      websocket_handle pf tc ps m =
        some [("type", "processed_video"), ("data", pf d)])
    ∧ (∀ d, msgGet m "type" = some "audio_chunk" → msgGet m "data" = some d →
      websocket_handle pf tc ps m =
        some [("type", "transcription"), ("data", tc d)])
    ∧ (∀ d, msgGet m "type" = some "neural_signal" → msgGet m "data" = some d →
      websocket_handle pf tc ps m =
        some [("type", "neural_command"), ("data", ps d)])
    ∧ (msgGet m "type" ≠ some "video_frame" →
       msgGet m "type" ≠ some "audio_chunk" →
       msgGet m "type" ≠ some "neural_signal" →
      websocket_handle pf tc ps m = some m) := by
  refine ⟨?_, ?_, ?_, ?_⟩
  · intro d ht hd
    simp [websocket_handle, ht, hd]
  · intro d ht hd
    have h1 : msgGet m "type" ≠ some "video_frame" := by rw [ht]; decide
    simp [websocket_handle, ht, hd, h1]
  · intro d ht hd
    have h1 : msgGet m "type" ≠ some "video_frame" := by rw [ht]; decide
    have h2 : msgGet m "type" ≠ some "audio_chunk" := by rw [ht]; decide
    simp [websocket_handle, ht, hd, h1, h2]
  · intro h1 h2 h3
    simp [websocket_handle, h1, h2, h3]

/-- Witness for the amended C6: a chat-style message with an unrecognised
type tag is broadcast unchanged. -/
theorem websocket_handle_spec_witness :
    websocket_handle id id id [("type", "chat"), ("text", "hi")] =
      some [("type", "chat"), ("text", "hi")] :=
  (websocket_handle_spec id id id [("type", "chat"), ("text", "hi")]).2.2.2
    (by decide) (by decide) (by decide)

/-! ## Blockchain service: identity creation
Embedding of `BlockchainService.create_identity` in the mock-blockchain
branch (`src/backend/services/blockchain_service.py`).  The generated RSA
PEMs, the account randomness (`secrets.token_hex`), the derived account
address, the contract-computed identity id and the timestamps are oracle
inputs.  `MockBlockchain.create_account` also stores the account's private
key in `self.accounts`, so that mapping is threaded through the call.  The
DID document and the response are modelled by the string values they carry
(dictionary keys are fixed literals and carry no key material). -/

/-- A `MockBlockchain.accounts` entry. -/
structure MockAccount where
  private_key : String
  balance : Nat
  nonce : Nat
deriving Repr, DecidableEq

/-- `MockBlockchain.create_account`: records the fresh private key (and a
starting balance and nonce) under the derived address in `self.accounts`,
and returns address and private key. -/
def create_account (accounts : List (String × MockAccount))
    (private_key address : String) :
    List (String × MockAccount) × String × String :=
  ((address, { private_key := private_key, balance := 1000, nonce := 0 })
      :: accounts,
   address, private_key)

def lookupAccount (accounts : List (String × MockAccount)) (addr : String) :
    Option MockAccount :=
  (accounts.find? (fun p => p.1 == addr)).map Prod.snd

/-- The string values of the DID document built in `create_identity`:
context URLs, the DID, the `#keys-1` verification method with the public
PEM, authentication/assertion references, and the profile service entry. -/
def didDocumentValues (did public_pem blockchain_address : String) : List String :=
  ["https://www.w3.org/ns/did/v1", "https://univo.app/did/v1",
   did, did ++ "#keys-1", "RsaVerificationKey2018", did, public_pem,
   did ++ "#keys-1", did ++ "#keys-1",
   did ++ "#univo-profile", "UnivoProfile",
   "https://univo.app/profiles/" ++ blockchain_address]

/-- The entry stored in `self.identity_registry[did]`. -/
structure IdentityRegistryEntry where
  identity_id : String
  did_document_values : List String
  private_key : String
  public_key : String
  blockchain_address : String
  blockchain_private_key : String
  profile : String
deriving Repr, DecidableEq

/-- The response dictionary returned by `create_identity`. -/
structure CreateIdentityResponse where
  did : String
  identity_id : String
  did_document_values : List String
  blockchain_address : String
  verification_public_key : String
  created_at : String
deriving Repr, DecidableEq

/-- `BlockchainService.create_identity` (key handling, mock branch):
creates the blockchain account through `MockBlockchain.create_account`
(which stores the account private key in the accounts mapping), builds the
DID and DID document, stores both PEMs and the account private key in the
local registry, and answers with the DID document and only the public PEM
under `verification_keys` ("Don't return private key in response for
security"). -/
def create_identity (accounts : List (String × MockAccount))
    (private_pem public_pem : String)
    (blockchain_address blockchain_private_key : String)
    (identity_id identity_data created_at : String) :
    List (String × MockAccount) × IdentityRegistryEntry × CreateIdentityResponse :=
  let acct := create_account accounts blockchain_private_key blockchain_address
  let did := "did:univo:" ++ acct.2.1
  (acct.1,
   { identity_id := identity_id
     did_document_values := didDocumentValues did public_pem acct.2.1
     private_key := private_pem
     public_key := public_pem
     blockchain_address := acct.2.1
     blockchain_private_key := acct.2.2
     profile := identity_data },
   { did := did
     identity_id := identity_id
     did_document_values := didDocumentValues did public_pem acct.2.1
     blockchain_address := acct.2.1
     verification_public_key := public_pem
     created_at := created_at })

/-- Every string value appearing anywhere in the `create_identity`
response. -/
def responseStrings (r : CreateIdentityResponse) : List String :=
  r.did :: r.identity_id :: r.blockchain_address ::
    r.verification_public_key :: r.created_at :: r.did_document_values

/-- C9 counterexample: `MockBlockchain.create_account` stores the fresh
account private key in the mock blockchain's `accounts` mapping as well,
so the blockchain account's private key is not stored only in the
`identity_registry`. -/
theorem create_identity_only_registry_counterexample :
    (create_identity [] "PRIVPEM" "PUBPEM" "ADDR" "BPRIV" "ID1" "profile"
        "now").1 =
      [("ADDR", { private_key := "BPRIV", balance := 1000, nonce := 0 })]
    ∧ (lookupAccount (create_identity [] "PRIVPEM" "PUBPEM" "ADDR" "BPRIV"
        "ID1" "profile" "now").1 "ADDR").map MockAccount.private_key =
      some "BPRIV" :=
  ⟨rfl, rfl⟩

/-- C9 amended: the `create_identity` response carries the RSA public PEM;
neither the RSA private PEM nor the blockchain account's private key
appears among its string values (they differ from every response value,
which are all built from the DID, identity id, address, public PEM and
timestamp); both private keys are stored in the registry entry, and the
account's private key is additionally recorded in the mock blockchain's
`accounts` mapping by `create_account` (the RSA private PEM is not). -/
theorem create_identity_spec (accounts : List (String × MockAccount))
    (private_pem public_pem : String)
    (blockchain_address blockchain_private_key : String)
    (identity_id identity_data created_at : String) :
    (public_pem ∈ responseStrings (create_identity accounts private_pem
        public_pem blockchain_address blockchain_private_key identity_id
        identity_data created_at).2.2)
    ∧ (create_identity accounts private_pem public_pem blockchain_address
        blockchain_private_key identity_id identity_data
        created_at).2.1.private_key = private_pem
    ∧ (create_identity accounts private_pem public_pem blockchain_address
        blockchain_private_key identity_id identity_data
        created_at).2.1.blockchain_private_key = blockchain_private_key
    ∧ (create_identity accounts private_pem public_pem blockchain_address
        blockchain_private_key identity_id identity_data created_at).1 =
        (blockchain_address,
          { private_key := blockchain_private_key, balance := 1000,
            nonce := 0 }) :: accounts
    ∧ (∀ s ∈ responseStrings (create_identity accounts private_pem public_pem
          blockchain_address blockchain_private_key identity_id identity_data
          created_at).2.2,
        s ∈ ["did:univo:" ++ blockchain_address, identity_id,
             blockchain_address, public_pem, created_at]
        ∨ s ∈ didDocumentValues ("did:univo:" ++ blockchain_address)
            public_pem blockchain_address)
    ∧ (private_pem ∉ ["did:univo:" ++ blockchain_address, identity_id,
          blockchain_address, public_pem, created_at] →
       private_pem ∉ didDocumentValues ("did:univo:" ++ blockchain_address)
          public_pem blockchain_address →
       private_pem ∉ responseStrings (create_identity accounts private_pem
          public_pem blockchain_address blockchain_private_key identity_id
          identity_data created_at).2.2)
    ∧ (blockchain_private_key ∉ ["did:univo:" ++ blockchain_address,
          identity_id, blockchain_address, public_pem, created_at] →
       blockchain_private_key ∉ didDocumentValues
          ("did:univo:" ++ blockchain_address) public_pem blockchain_address →
       blockchain_private_key ∉ responseStrings (create_identity accounts
          private_pem public_pem blockchain_address blockchain_private_key
          identity_id identity_data created_at).2.2) := by
  refine ⟨?_, rfl, rfl, rfl, ?_, ?_, ?_⟩
  · simp [responseStrings, create_identity, create_account]
  · intro s hs
    simp only [responseStrings, create_identity, create_account,
      List.mem_cons] at hs
    rcases hs with rfl | rfl | rfl | rfl | rfl | h
    · exact Or.inl (by simp)
    · exact Or.inl (by simp)
    · exact Or.inl (by simp)
    · exact Or.inl (by simp)
    · exact Or.inl (by simp)
    · exact Or.inr h
  · intro h1 h2 hmem
    simp only [responseStrings, create_identity, create_account,
      List.mem_cons] at hmem
    rcases hmem with rfl | rfl | rfl | rfl | rfl | h
    · exact h1 (by simp)
    · exact h1 (by simp)
    · exact h1 (by simp)
    · exact h1 (by simp)
    · exact h1 (by simp)
    · exact h2 h
  · intro h1 h2 hmem
    simp only [responseStrings, create_identity, create_account,
      List.mem_cons] at hmem
    rcases hmem with rfl | rfl | rfl | rfl | rfl | h
    · exact h1 (by simp)
    · exact h1 (by simp)
    · exact h1 (by simp)
    · exact h1 (by simp)
    · exact h1 (by simp)
    · exact h2 h

/-- Witness for the amended C9 at concrete distinct strings: the private
PEM is absent from the response while the public PEM is present. -/
theorem create_identity_spec_witness :
    "PRIVPEM" ∉ responseStrings (create_identity [] "PRIVPEM" "PUBPEM"
      "ADDR" "BPRIV" "ID1" "profile" "now").2.2
    ∧ "PUBPEM" ∈ responseStrings (create_identity [] "PRIVPEM" "PUBPEM"
      "ADDR" "BPRIV" "ID1" "profile" "now").2.2 :=
  ⟨(create_identity_spec [] "PRIVPEM" "PUBPEM" "ADDR" "BPRIV" "ID1"
      "profile" "now").2.2.2.2.2.1 (by decide) (by decide),
   (create_identity_spec [] "PRIVPEM" "PUBPEM" "ADDR" "BPRIV" "ID1"
      "profile" "now").1⟩

/-! ## AI service: text chunking
Embedding of `AIService._chunk_text` (`src/backend/services/ai_service.py`).
Strings are lists of characters; Python's `str.split()` (split on runs of
whitespace, dropping empty pieces) and `" ".join` are modelled explicitly,
and the chunking loop follows the source's accumulator structure. -/

/-- The characters Python's `str.split()` treats as whitespace. -/
def pyWS (c : Char) : Bool :=
  c == ' ' || c == '\t' || c == '\n' || c == '\r'
    || c == Char.ofNat 11 || c == Char.ofNat 12

/-- Emit the pending (reversed) word accumulator, dropping it if empty. -/
def emitPending (acc : List Char) : List (List Char) :=
  if acc.isEmpty then [] else [acc.reverse]

/-- Whitespace splitter with a reversed-word accumulator. -/
def splitWsAux : List Char → List Char → List (List Char)
  | [], acc => emitPending acc
  | c :: rest, acc =>
    if pyWS c then emitPending acc ++ splitWsAux rest []
    else splitWsAux rest (c :: acc)

/-- Python's `text.split()`. -/
def pySplit (s : List Char) : List (List Char) :=
  splitWsAux s []

/-- Python's `" ".join(parts)`. -/
def joinSp : List (List Char) → List Char
  | [] => []
  | [w] => w
  | w :: ws => w ++ ' ' :: joinSp ws

/-- The `for word in words` loop of `_chunk_text`, carrying the current
chunk (as a word list) and `current_length`. -/
def chunkAux (max_length : Nat) :
    List (List Char) → List (List Char) → Nat → List (List Char)
  | [], current, _ => if current.isEmpty then [] else [joinSp current]
  | w :: ws, current, len =>
    if len + w.length > max_length then
      joinSp current :: chunkAux max_length ws [w] w.length
    else
      chunkAux max_length ws (current ++ [w]) (len + w.length + 1)

/-- `AIService._chunk_text`. -/
def chunk_text (max_length : Nat) (text : List Char) : List (List Char) :=
  chunkAux max_length (pySplit text) [] 0

/-- A word produced by `pySplit`: nonempty and free of whitespace. -/
def CleanWord (w : List Char) : Prop :=
  w ≠ [] ∧ ∀ c ∈ w, pyWS c = false

theorem splitWsAux_append_space (b : List Char) :
    ∀ (a acc : List Char),
      splitWsAux (a ++ ' ' :: b) acc = splitWsAux a acc ++ splitWsAux b [] := by
  intro a
  induction a with
  | nil =>
    intro acc
    show splitWsAux (' ' :: b) acc = emitPending acc ++ splitWsAux b []
    simp [splitWsAux, pyWS]
  | cons c a' ih =>
    intro acc
    show splitWsAux (c :: (a' ++ ' ' :: b)) acc = _
    by_cases hc : pyWS c
    · simp only [splitWsAux, if_pos hc, ih, List.append_assoc]
    · simp only [splitWsAux, if_neg hc, ih]

theorem splitWsAux_noWS (w : List Char) :
    ∀ acc, (∀ c ∈ w, pyWS c = false) →
      splitWsAux w acc = emitPending (w.reverse ++ acc) := by
  induction w with
  | nil => intro acc _; simp [splitWsAux]
  | cons c w' ih =>
    intro acc hw
    have hc : pyWS c = false := hw c (List.mem_cons_self _ _)
    show splitWsAux (c :: w') acc = _
    rw [show splitWsAux (c :: w') acc =
      if pyWS c then emitPending acc ++ splitWsAux w' []
      else splitWsAux w' (c :: acc) from rfl]
    rw [hc]
    simp only [Bool.false_eq_true, if_false]
    rw [ih (c :: acc) (fun d hd => hw d (List.mem_cons_of_mem _ hd))]
    simp

theorem pySplit_cleanWord {w : List Char} (h : CleanWord w) :
    pySplit w = [w] := by
  rcases h with ⟨hne, hws⟩
  rw [pySplit, splitWsAux_noWS w [] hws]
  simp only [List.append_nil, emitPending]
  rw [if_neg (by simp [hne])]
  simp

theorem pySplit_all_clean (s : List Char) :
    ∀ w ∈ pySplit s, CleanWord w := by
  suffices h : ∀ (t acc : List Char), (∀ c ∈ acc, pyWS c = false) →
      ∀ w ∈ splitWsAux t acc, CleanWord w by
    intro w hw
    exact h s [] (by intro c hc; simp at hc) w hw
  intro t
  induction t with
  | nil =>
    intro acc hacc w hw
    simp only [splitWsAux, emitPending] at hw
    by_cases ha : acc.isEmpty
    · rw [if_pos ha] at hw; simp at hw
    · rw [if_neg ha] at hw
      rcases List.mem_singleton.1 hw with rfl
      refine ⟨by simpa using ha, ?_⟩
      intro c hc
      exact hacc c (List.mem_reverse.1 hc)
  | cons c t' ih =>
    intro acc hacc w hw
    rw [show splitWsAux (c :: t') acc =
      if pyWS c then emitPending acc ++ splitWsAux t' []
      else splitWsAux t' (c :: acc) from rfl] at hw
    by_cases hc : pyWS c
    · rw [if_pos hc] at hw
      rcases List.mem_append.1 hw with h1 | h1
      · simp only [emitPending] at h1
        by_cases ha : acc.isEmpty
        · rw [if_pos ha] at h1; simp at h1
        · rw [if_neg ha] at h1
          rcases List.mem_singleton.1 h1 with rfl
          refine ⟨by simpa using ha, ?_⟩
          intro d hd
          exact hacc d (List.mem_reverse.1 hd)
      · exact ih [] (by intro d hd; simp at hd) w h1
    · rw [if_neg hc] at hw
      refine ih (c :: acc) ?_ w hw
      intro d hd
      rcases List.mem_cons.1 hd with rfl | hd'
      · exact Bool.of_not_eq_true hc
      · exact hacc d hd'

theorem pySplit_joinSp_clean :
    ∀ {l : List (List Char)}, (∀ w ∈ l, CleanWord w) →
      pySplit (joinSp l) = l := by
  intro l
  induction l with
  | nil => intro _; rfl
  | cons w ws ih =>
    intro hl
    cases ws with
    | nil =>
      show pySplit w = [w]
      exact pySplit_cleanWord (hl w (List.mem_cons_self _ _))
    | cons w2 ws' =>
      show pySplit (w ++ ' ' :: joinSp (w2 :: ws')) = w :: w2 :: ws'
      rw [pySplit, splitWsAux_append_space]
      rw [show splitWsAux w [] = pySplit w from rfl,
        show splitWsAux (joinSp (w2 :: ws')) [] = pySplit (joinSp (w2 :: ws')) from rfl]
      rw [pySplit_cleanWord (hl w (List.mem_cons_self _ _))]
      rw [ih (fun v hv => hl v (List.mem_cons_of_mem _ hv))]
      rfl

theorem chunkAux_ne_nil (max_length : Nat) :
    ∀ (ws current : List (List Char)) (len : Nat), ¬ current.isEmpty →
      chunkAux max_length ws current len ≠ [] := by
  intro ws
  induction ws with
  | nil =>
    intro current len hcur
    simp only [chunkAux, if_neg hcur]
    simp
  | cons w ws' ih =>
    intro current len hcur
    simp only [chunkAux]
    split
    · simp
    · exact ih (current ++ [w]) (len + w.length + 1) (by simp)

theorem chunkAux_split_join (max_length : Nat) :
    ∀ (ws current : List (List Char)) (len : Nat),
      (∀ w ∈ ws, CleanWord w) → (∀ w ∈ current, CleanWord w) →
      pySplit (joinSp (chunkAux max_length ws current len)) = current ++ ws := by
  intro ws
  induction ws with
  | nil =>
    intro current len _ hcur
    simp only [chunkAux]
    by_cases hc : current.isEmpty
    · rw [if_pos hc]
      rcases List.isEmpty_iff.1 hc with rfl
      rfl
    · rw [if_neg hc]
      show pySplit (joinSp current) = current ++ []
      rw [pySplit_joinSp_clean hcur, List.append_nil]
  | cons w ws' ih =>
    intro current len hws hcur
    have hw : CleanWord w := hws w (List.mem_cons_self _ _)
    have hws' : ∀ v ∈ ws', CleanWord v := fun v hv => hws v (List.mem_cons_of_mem _ hv)
    simp only [chunkAux]
    split
    · have hrec := ih [w] w.length hws' (by
        intro v hv
        rcases List.mem_singleton.1 hv with rfl
        exact hw)
      have hne : chunkAux max_length ws' [w] w.length ≠ [] :=
        chunkAux_ne_nil max_length ws' [w] w.length (by simp)
      cases hrest : chunkAux max_length ws' [w] w.length with
      | nil => exact absurd hrest hne
      | cons c cs =>
        show pySplit (joinSp current ++ ' ' :: joinSp (c :: cs)) = current ++ w :: ws'
        rw [pySplit, splitWsAux_append_space,
          show splitWsAux (joinSp current) [] = pySplit (joinSp current) from rfl,
          show splitWsAux (joinSp (c :: cs)) [] = pySplit (joinSp (c :: cs)) from rfl,
          pySplit_joinSp_clean hcur, ← hrest, hrec]
        simp
    · have hrec := ih (current ++ [w]) (len + w.length + 1) hws' (by
        intro v hv
        rcases List.mem_append.1 hv with h1 | h1
        · exact hcur v h1
        · rcases List.mem_singleton.1 h1 with rfl
          exact hw)
      rw [hrec]
      simp

/-- C10: joining the chunks produced by `_chunk_text` with single spaces
and splitting on whitespace recovers exactly `text.split()`: no word is
lost or duplicated and order is preserved. -/
theorem chunk_text_spec (text : List Char) (max_length : Nat)
    (hpos : 0 < max_length) :
    pySplit (joinSp (chunk_text max_length text)) = pySplit text := by
  rw [chunk_text, chunkAux_split_join max_length (pySplit text) [] 0
    (pySplit_all_clean text) (by intro w hw; simp at hw)]
  rfl

/-- Witness for C10 on a concrete sentence and `max_length = 5`. -/
theorem chunk_text_spec_witness :
    pySplit (joinSp (chunk_text 5 ("one two three".toList))) =
      pySplit ("one two three".toList) :=
  chunk_text_spec ("one two three".toList) 5 (by decide)

/-! ## Quantum service: BB84 key generation
Embedding of `QuantumKeyDistribution.generate_bb84_key`
(`src/backend/services/quantum_service.py`).  The `secrets` randomness
(Alice's bits/bases, Bob's bases, the fallback `token_hex` bytes) becomes
explicit parameters.  The per-qubit circuit results (`measured_bits`) are
computed by the source but never used for sifting, so they are not
modelled.  `int(key_string, 2)` raises `ValueError` on the empty string,
modelled by `none`. -/

/-- `int(''.join(bits), 2)`: the number whose binary digits are the list. -/
def bitsToNat (bits : List Nat) : Nat :=
  bits.foldl (fun acc b => 2 * acc + b) 0

/-- Lowercase hexadecimal digits of `n` (`hex(n)[2:]`), with a fuel
argument so the definition reduces structurally. -/
def hexCharsAux : Nat → Nat → List Char
  | 0, _ => []
  | fuel + 1, n =>
    if n < 16 then [Nat.digitChar n]
    else hexCharsAux fuel (n / 16) ++ [Nat.digitChar (n % 16)]

def hexChars (n : Nat) : List Char := hexCharsAux (n + 1) n

/-- Python's `str.zfill`: left-pad with `'0'` to the given width. -/
def zfill (width : Nat) (s : List Char) : List Char :=
  List.replicate (width - s.length) '0' ++ s

/-- `secrets.token_hex`: two lowercase hex digits per byte. -/
def token_hex : List Nat → List Char
  | [] => []
  | b :: bs => Nat.digitChar (b / 16) :: Nat.digitChar (b % 16) :: token_hex bs

/-- The sifting loop: Alice's bits at the positions where both bases
agree, in order. -/
def siftedKey (alice_bits alice_bases bob_bases : List Nat) : List Nat :=
  (List.range alice_bits.length).filterMap (fun i =>
    if alice_bases.getD i 0 = bob_bases.getD i 0
    then some (alice_bits.getD i 0) else none)

/-- `QuantumKeyDistribution.generate_bb84_key`. -/
def generate_bb84_key (qiskit_available : Bool) (key_length : Nat)
    (rand_bytes : List Nat) (alice_bits alice_bases bob_bases : List Nat) :
    Option (List Char × List Nat × List Nat) :=
  if qiskit_available = false then
    some (token_hex rand_bytes, [], [])
  else
    let sifted_taken := (siftedKey alice_bits alice_bases bob_bases).take key_length
    if sifted_taken.isEmpty then none
    else
      some (zfill (key_length / 4) (hexChars (bitsToNat sifted_taken)),
        alice_bases, bob_bases)

theorem foldl_bits_lt (bits : List Nat) :
    ∀ acc, (∀ b ∈ bits, b = 0 ∨ b = 1) →
      bits.foldl (fun a b => 2 * a + b) acc < (acc + 1) * 2 ^ bits.length := by
  induction bits with
  | nil =>
    intro acc _
    simp
  | cons b t ih =>
    intro acc hb
    simp only [List.foldl_cons, List.length_cons]
    have hb0 : b = 0 ∨ b = 1 := hb b (List.mem_cons_self _ _)
    have h1 := ih (2 * acc + b) (fun x hx => hb x (List.mem_cons_of_mem _ hx))
    have h2 : (2 * acc + b + 1) * 2 ^ t.length ≤ (acc + 1) * 2 ^ (t.length + 1) := by
      rw [pow_succ]
      calc (2 * acc + b + 1) * 2 ^ t.length
          ≤ ((acc + 1) * 2) * 2 ^ t.length :=
            Nat.mul_le_mul_right _ (by omega)
        _ = (acc + 1) * (2 ^ t.length * 2) := by ring
    exact lt_of_lt_of_le h1 h2

theorem bitsToNat_lt {bits : List Nat} (h : ∀ b ∈ bits, b = 0 ∨ b = 1) :
    bitsToNat bits < 2 ^ bits.length := by
  have := foldl_bits_lt bits 0 h
  simpa [bitsToNat] using this

theorem hexCharsAux_length :
    ∀ (fuel n k : Nat), n < fuel → n < 16 ^ k → 0 < k →
      (hexCharsAux fuel n).length ≤ k := by
  intro fuel
  induction fuel with
  | zero => intro n k h; omega
  | succ f ih =>
    intro n k hfuel hnk hk
    simp only [hexCharsAux]
    by_cases h16 : n < 16
    · rw [if_pos h16]
      simpa using hk
    · rw [if_neg h16]
      have hk2 : 2 ≤ k := by
        have : k ≠ 1 := by
          intro hk1
          rw [hk1, pow_one] at hnk
          exact h16 hnk
        omega
      have hdiv : n / 16 < 16 ^ (k - 1) := by
        apply Nat.div_lt_of_lt_mul
        have he : 16 ^ k = 16 * 16 ^ (k - 1) := by
          rw [← pow_succ']
          congr 1
          omega
        rw [← he]
        exact hnk
      have hfd : n / 16 < f := by
        have : n / 16 < n := Nat.div_lt_self (by omega) (by omega)
        omega
      have := ih (n / 16) (k - 1) hfd hdiv (by omega)
      simp only [List.length_append, List.length_cons, List.length_nil]
      omega

theorem hexChars_length {n k : Nat} (hnk : n < 16 ^ k) (hk : 0 < k) :
    (hexChars n).length ≤ k :=
  hexCharsAux_length (n + 1) n k (Nat.lt_succ_self n) hnk hk

theorem zfill_length {width : Nat} {s : List Char} (h : s.length ≤ width) :
    (zfill width s).length = width := by
  simp only [zfill, List.length_append, List.length_replicate]
  omega

theorem token_hex_length : ∀ bs : List Nat, (token_hex bs).length = 2 * bs.length := by
  intro bs
  induction bs with
  | nil => rfl
  | cons b t ih =>
    simp only [token_hex, List.length_cons, ih]
    omega

theorem siftedKey_bits {alice_bits alice_bases bob_bases : List Nat}
    (hbits : ∀ b ∈ alice_bits, b = 0 ∨ b = 1) :
    ∀ b ∈ siftedKey alice_bits alice_bases bob_bases, b = 0 ∨ b = 1 := by
  intro b hb
  rcases List.mem_filterMap.1 hb with ⟨i, hi, hcond⟩
  by_cases hc : alice_bases.getD i 0 = bob_bases.getD i 0
  · rw [if_pos hc] at hcond
    cases hcond
    have hi' : i < alice_bits.length := List.mem_range.1 hi
    have hmem : alice_bits.getD i 0 ∈ alice_bits := by
      rw [List.getD_eq_getElem alice_bits 0 hi']
      exact List.getElem_mem hi'
    exact hbits _ hmem
  · rw [if_neg hc] at hcond
    exact Option.noConfusion hcond

theorem siftedKey_ne_nil {alice_bits alice_bases bob_bases : List Nat}
    {i : Nat} (hi : i < alice_bits.length)
    (hc : alice_bases.getD i 0 = bob_bases.getD i 0) :
    siftedKey alice_bits alice_bases bob_bases ≠ [] := by
  intro hnil
  have : alice_bits.getD i 0 ∈ siftedKey alice_bits alice_bases bob_bases :=
    List.mem_filterMap.2 ⟨i, List.mem_range.2 hi, by rw [if_pos hc]⟩
  rw [hnil] at this
  exact List.not_mem_nil _ this

/-- C4 counterexample: with the simulator available and no position where
Alice's and Bob's bases coincide, `int('', 2)` raises and no key is
returned, contradicting the unconditional claim. -/
theorem generate_bb84_key_counterexample :
    generate_bb84_key true 4 [] (List.replicate 8 0) (List.replicate 8 0)
        (List.replicate 8 1) = none
    ∧ ∀ out, generate_bb84_key true 4 [] (List.replicate 8 0)
        (List.replicate 8 0) (List.replicate 8 1) ≠ some out := by
  refine ⟨by decide, ?_⟩
  intro out h
  rw [show generate_bb84_key true 4 [] (List.replicate 8 0)
    (List.replicate 8 0) (List.replicate 8 1) = none by decide] at h
  exact Option.noConfusion h

/-- C4 amended: provided at least one basis position coincides (otherwise
`int('', 2)` raises) and `key_length` is a multiple of 4 (as in all
callers, default 256), the returned key is the hex string of Alice's bits
at the coinciding positions, in order, truncated to `key_length` bits and
zero-filled to exactly `key_length / 4` hex digits, together with both
basis lists; when the simulator is unavailable and `key_length` is a
multiple of 8, a classical `token_hex` key of `key_length / 8` random
bytes (`key_length` bits, `key_length / 4` hex digits) is returned with
two empty basis lists. -/
theorem generate_bb84_key_spec (key_length : Nat) (rand_bytes : List Nat)
    (alice_bits alice_bases bob_bases : List Nat)
    (hlen_bits : alice_bits.length = 2 * key_length)
    (h4 : key_length % 4 = 0)
    (hmatch : ∃ i < alice_bits.length,
      alice_bases.getD i 0 = bob_bases.getD i 0)
    (hbits : ∀ b ∈ alice_bits, b = 0 ∨ b = 1) :
    (generate_bb84_key true key_length rand_bytes alice_bits alice_bases
        bob_bases
      = some (zfill (key_length / 4) (hexChars (bitsToNat
          ((siftedKey alice_bits alice_bases bob_bases).take key_length))),
          alice_bases, bob_bases)
     ∧ (zfill (key_length / 4) (hexChars (bitsToNat
          ((siftedKey alice_bits alice_bases bob_bases).take
            key_length)))).length = key_length / 4)
    ∧ (rand_bytes.length = key_length / 8 → key_length % 8 = 0 →
        generate_bb84_key false key_length rand_bytes alice_bits alice_bases
            bob_bases = some (token_hex rand_bytes, [], [])
        ∧ (token_hex rand_bytes).length = key_length / 4) := by
  obtain ⟨i, hi, hc⟩ := hmatch
  have hkl : 0 < key_length := by
    by_contra h
    push_neg at h
    interval_cases key_length
    rw [hlen_bits] at hi
    omega
  have hne : siftedKey alice_bits alice_bases bob_bases ≠ [] :=
    siftedKey_ne_nil hi hc
  have htake_ne : ¬ ((siftedKey alice_bits alice_bases bob_bases).take
      key_length).isEmpty := by
    cases hs : siftedKey alice_bits alice_bases bob_bases with
    | nil => exact absurd hs hne
    | cons b t =>
      cases key_length with
      | zero => omega
      | succ k => simp [List.take]
  have hhexlen : (hexChars (bitsToNat
      ((siftedKey alice_bits alice_bases bob_bases).take
        key_length))).length ≤ key_length / 4 := by
    apply hexChars_length
    · have h1 : bitsToNat ((siftedKey alice_bits alice_bases bob_bases).take
          key_length) < 2 ^ ((siftedKey alice_bits alice_bases bob_bases).take
            key_length).length :=
        bitsToNat_lt (fun b hb =>
          siftedKey_bits hbits b (List.mem_of_mem_take hb))
      have h2 : ((siftedKey alice_bits alice_bases bob_bases).take
          key_length).length ≤ key_length := by
        rw [List.length_take]
        omega
      have h3 : (2 : Nat) ^ ((siftedKey alice_bits alice_bases bob_bases).take
          key_length).length ≤ 2 ^ key_length :=
        Nat.pow_le_pow_right (by omega) h2
      have h4' : (2 : Nat) ^ key_length = 16 ^ (key_length / 4) := by
        have : key_length = 4 * (key_length / 4) := by omega
        rw [this]
        rw [pow_mul]
        norm_num
      omega
    · omega
  refine ⟨⟨?_, zfill_length hhexlen⟩, ?_⟩
  · simp only [generate_bb84_key, Bool.true_eq_false, if_neg, if_false]
    rw [if_neg htake_ne]
  · intro hrb h8
    refine ⟨rfl, ?_⟩
    rw [token_hex_length, hrb]
    omega

/-- Witness for the amended C4 at a concrete 8-round run with 5 basis
matches, truncated to 4 bits. -/
theorem generate_bb84_key_spec_witness :
    generate_bb84_key true 4 [] [1, 0, 1, 1, 0, 0, 1, 0]
        [0, 1, 0, 0, 1, 1, 0, 1] [0, 0, 0, 1, 1, 0, 0, 1] =
      some (['d'], [0, 1, 0, 0, 1, 1, 0, 1], [0, 0, 0, 1, 1, 0, 0, 1]) := by
  have h := (generate_bb84_key_spec 4 [] [1, 0, 1, 1, 0, 0, 1, 0]
    [0, 1, 0, 0, 1, 1, 0, 1] [0, 0, 0, 1, 1, 0, 0, 1]
    (by decide) (by decide) ⟨0, by decide, by decide⟩
    (by decide)).1.1
  rw [h]
  decide

/-! ## Quantum service: lattice cipher
Embedding of `PostQuantumCrypto.generate_lattice_keypair`,
`lattice_encrypt` and `lattice_decrypt`
(`src/backend/services/quantum_service.py`).  Vectors are lists; numpy's
`%` follows Python's sign convention, which is `Int.emod`.  The
`astype(np.int32)` reinterpretation in decryption does not change the
value mod 256 (`256 ∣ 2^32`), so decryption is `ciphertext mod 256`
followed by truncation at the first zero byte; the private key is loaded
but never used.  Over-long messages (`ValueError`) are `none`. -/

def latticeModulus : Int := 2 ^ 32 - 1

def latticeDimension : Nat := 512

/-- `generate_lattice_keypair`: the key-generation randomness (small
private polynomial `s`, noise `n`) is explicit; returns (public, private).
-/
def generate_lattice_keypair (s n : List Int) : List Int × List Int :=
  (List.zipWith (fun si ni => (si * 3 + ni) % latticeModulus) s n, s)

/-- `lattice_encrypt`: pad the message bytes to the lattice dimension and
add `noise * pk` componentwise mod the modulus.  The per-coefficient
encryption noise is explicit. -/
def lattice_encrypt (message : List Nat) (noise pk : List Int) :
    Option (List Int) :=
  if message.length > latticeDimension then none
  else
    some (List.zipWith (fun p q => (p + q.1 * q.2) % latticeModulus)
      (message.map (Nat.cast : Nat → Int) ++
        List.replicate (latticeDimension - message.length) (0 : Int))
      (noise.zip pk))

/-- `lattice_decrypt`: reduce each coefficient mod 256 and truncate at the
first zero byte (the private key is ignored by the source). -/
def lattice_decrypt (ciphertext : List Int) (sk : List Int) : List Nat :=
  (ciphertext.map (fun c => (c % 256).toNat)).takeWhile (fun b => b != 0)

/-- C3 counterexample: with a generated key pair whose public coefficients
are all 1, a unit encryption noise at position 0 turns the byte 1 into 2,
and with zero noise a zero byte inside the message truncates it; in both
cases `lattice_decrypt` does not return the original message. -/
theorem lattice_roundtrip_counterexample :
    ((lattice_encrypt [1] ((1 : Int) :: List.replicate 511 0)
        (generate_lattice_keypair (List.replicate 512 0)
          (List.replicate 512 1)).1).map
      (fun ct => lattice_decrypt ct
        (generate_lattice_keypair (List.replicate 512 0)
          (List.replicate 512 1)).2) = some [2]
      ∧ (some [2] : Option (List Nat)) ≠ some [1])
    ∧ ((lattice_encrypt [1, 0, 2] (List.replicate 512 0)
        (generate_lattice_keypair (List.replicate 512 0)
          (List.replicate 512 1)).1).map
      (fun ct => lattice_decrypt ct
        (generate_lattice_keypair (List.replicate 512 0)
          (List.replicate 512 1)).2) = some [1]
      ∧ (some [1] : Option (List Nat)) ≠ some [1, 0, 2]) := by
  refine ⟨⟨by decide, by decide⟩, ⟨by decide, by decide⟩⟩

theorem takeWhile_ne_zero_append (l r : List Nat)
    (hl : ∀ b ∈ l, b ≠ 0) :
    (l ++ r).takeWhile (fun b => b != 0) =
      l ++ r.takeWhile (fun b => b != 0) := by
  induction l with
  | nil => rfl
  | cons b t ih =>
    have hb : (b != 0) = true := by
      simpa using hl b (List.mem_cons_self _ _)
    simp only [List.cons_append, List.takeWhile_cons, hb, if_true]
    rw [ih (fun x hx => hl x (List.mem_cons_of_mem _ hx))]

theorem takeWhile_replicate_zero (k : Nat) :
    (List.replicate k (0 : Nat)).takeWhile (fun b => b != 0) = [] := by
  cases k with
  | zero => rfl
  | succ m => simp [List.replicate_succ, List.takeWhile_cons]

theorem zipWith_zero_noise (padded : List Int) (pknoise : List (Int × Int))
    (hz : ∀ q ∈ pknoise, q.1 = 0)
    (hp : ∀ p ∈ padded, 0 ≤ p ∧ p < 256)
    (hlen : padded.length ≤ pknoise.length) :
    List.zipWith (fun p q => (p + q.1 * q.2) % latticeModulus)
      padded pknoise = padded := by
  induction padded generalizing pknoise with
  | nil => simp
  | cons p pt ih =>
    cases pknoise with
    | nil => simp at hlen
    | cons q qt =>
      simp only [List.zipWith_cons_cons]
      have hq : q.1 = 0 := hz q (List.mem_cons_self _ _)
      have hpb := hp p (List.mem_cons_self _ _)
      have hmod : (p + q.1 * q.2) % latticeModulus = p := by
        rw [hq, zero_mul, add_zero]
        exact Int.emod_eq_of_lt hpb.1
          (lt_of_lt_of_le hpb.2 (by unfold latticeModulus; omega))
      rw [hmod, ih qt (fun x hx => hz x (List.mem_cons_of_mem _ hx))
        (fun x hx => hp x (List.mem_cons_of_mem _ hx))
        (by simpa using Nat.le_of_succ_le_succ (by simpa using hlen))]

/-- C3 amended: the decrypt operation inverts encrypt only in the
degenerate case that every encryption-noise coefficient is zero and the
message consists of 1 to 512 nonzero bytes; with any noise contribution
not divisible by 256, or a zero byte inside the message, the original
message is not recovered (decryption reduces the ciphertext mod 256,
ignoring the private key, and truncates at the first zero). -/
theorem lattice_zero_noise_roundtrip (s n : List Int) (message : List Nat)
    (hs : s.length = 512) (hn : n.length = 512)
    (hlen1 : 1 ≤ message.length) (hlen2 : message.length ≤ 512)
    (hbytes : ∀ b ∈ message, 0 < b ∧ b < 256) :
    (lattice_encrypt message (List.replicate 512 0)
        (generate_lattice_keypair s n).1).map
      (fun ct => lattice_decrypt ct (generate_lattice_keypair s n).2) =
      some message := by
  have hpklen : (generate_lattice_keypair s n).1.length = 512 := by
    simp [generate_lattice_keypair, hs, hn]
  have hencrypt : lattice_encrypt message (List.replicate 512 0)
      (generate_lattice_keypair s n).1 =
      some (message.map (Nat.cast : Nat → Int) ++
        List.replicate (latticeDimension - message.length) (0 : Int)) := by
    rw [lattice_encrypt, if_neg (by unfold latticeDimension; omega)]
    congr 1
    apply zipWith_zero_noise
    · intro q hq
      have := (List.of_mem_zip hq).1
      exact List.eq_of_mem_replicate this
    · intro p hp
      rcases List.mem_append.1 hp with h1 | h1
      · rcases List.mem_map.1 h1 with ⟨b, hb, rfl⟩
        have h2 := (hbytes b hb).2
        constructor
        · exact Int.natCast_nonneg b
        · omega
      · rw [List.eq_of_mem_replicate h1]
        norm_num
    · rw [List.length_append, List.length_map, List.length_replicate,
        List.length_zip, List.length_replicate, hpklen]
      unfold latticeDimension
      omega
  rw [hencrypt, Option.map_some']
  congr 1
  rw [lattice_decrypt]
  have hbytesmap : ∀ (l : List Nat), (∀ b ∈ l, b < 256) →
      (l.map (Nat.cast : Nat → Int)).map (fun c => (c % 256).toNat) = l := by
    intro l
    induction l with
    | nil => intro _; rfl
    | cons b t ih =>
      intro hl
      simp only [List.map_cons]
      rw [ih (fun x hx => hl x (List.mem_cons_of_mem _ hx))]
      have hblt := hl b (List.mem_cons_self _ _)
      have hb256 : ((b : Int) % 256).toNat = b := by
        rw [Int.emod_eq_of_lt (Int.natCast_nonneg b) (by omega)]
        exact Int.toNat_natCast b
      rw [hb256]
  have hmap : ((message.map (Nat.cast : Nat → Int) ++
      List.replicate (latticeDimension - message.length) (0 : Int)).map
        (fun c => (c % 256).toNat) : List Nat) =
      message ++ List.replicate (latticeDimension - message.length) 0 := by
    rw [List.map_append, hbytesmap message (fun b hb => (hbytes b hb).2),
      List.map_replicate]
    rfl
  rw [hmap, takeWhile_ne_zero_append _ _
    (fun b hb => Nat.pos_iff_ne_zero.1 (hbytes b hb).1),
    takeWhile_replicate_zero, List.append_nil]

/-- Witness for the amended C3: a one-byte message survives the round trip
under zero encryption noise. -/
theorem lattice_zero_noise_roundtrip_witness :
    (lattice_encrypt [7] (List.replicate 512 0)
        (generate_lattice_keypair (List.replicate 512 0)
          (List.replicate 512 1)).1).map
      (fun ct => lattice_decrypt ct
        (generate_lattice_keypair (List.replicate 512 0)
          (List.replicate 512 1)).2) = some [7] :=
  lattice_zero_noise_roundtrip (List.replicate 512 0) (List.replicate 512 1)
    [7] (by rw [List.length_replicate]) (by rw [List.length_replicate])
    (by decide) (by decide)
    (by intro b hb; rcases List.mem_singleton.1 hb with rfl; omega)

/-! ## Base64
`base64.b64encode`/`b64decode` as used by `_sign_credential` and
`_verify_signature` (`src/backend/services/blockchain_service.py`), over
byte lists with the standard alphabet and `'='` padding. -/

def base64Alphabet : List Char :=
  ("ABCDEFGHIJKLMNOPQRSTUVWXYZabcdefghijklmnopqrstuvwxyz0123456789+/").toList

def sextetChar (n : Nat) : Char := base64Alphabet.getD n '='

def charSextet (c : Char) : Nat := base64Alphabet.indexOf c

def b64encode : List Nat → List Char
  | [] => []
  | [a] => [sextetChar (a / 4), sextetChar ((a % 4) * 16), '=', '=']
  | [a, b] => [sextetChar (a / 4), sextetChar ((a % 4) * 16 + b / 16),
               sextetChar ((b % 16) * 4), '=']
  | a :: b :: c :: rest =>
      sextetChar (a / 4) :: sextetChar ((a % 4) * 16 + b / 16) ::
        sextetChar ((b % 16) * 4 + c / 64) :: sextetChar (c % 64) ::
        b64encode rest

def b64decode : List Char → List Nat
  | c1 :: c2 :: c3 :: c4 :: rest =>
    if c3 = '=' then
      [charSextet c1 * 4 + charSextet c2 / 16]
    else if c4 = '=' then
      [charSextet c1 * 4 + charSextet c2 / 16,
       (charSextet c2 % 16) * 16 + charSextet c3 / 4]
    else
      (charSextet c1 * 4 + charSextet c2 / 16) ::
        ((charSextet c2 % 16) * 16 + charSextet c3 / 4) ::
        ((charSextet c3 % 4) * 64 + charSextet c4) :: b64decode rest
  | _ => []

theorem charSextet_sextetChar : ∀ n, n < 64 → charSextet (sextetChar n) = n := by
  decide

theorem sextetChar_ne_pad : ∀ n, n < 64 → sextetChar n ≠ '=' := by
  decide

theorem b64_roundtrip :
    ∀ bytes : List Nat, (∀ b ∈ bytes, b < 256) →
      b64decode (b64encode bytes) = bytes
  | [], _ => rfl
  | [a], h => by
    have ha : a < 256 := h a (List.mem_cons_self _ _)
    show b64decode [sextetChar (a / 4), sextetChar ((a % 4) * 16), '=', '='] = [a]
    rw [show b64decode [sextetChar (a / 4), sextetChar ((a % 4) * 16), '=', '='] =
      [charSextet (sextetChar (a / 4)) * 4 +
        charSextet (sextetChar ((a % 4) * 16)) / 16] from rfl]
    rw [charSextet_sextetChar _ (by omega), charSextet_sextetChar _ (by omega)]
    congr 1
    omega
  | [a, b], h => by
    have ha : a < 256 := h a (List.mem_cons_self _ _)
    have hb : b < 256 := h b (List.mem_cons_of_mem _ (List.mem_cons_self _ _))
    show b64decode [sextetChar (a / 4), sextetChar ((a % 4) * 16 + b / 16),
      sextetChar ((b % 16) * 4), '='] = [a, b]
    rw [show b64decode [sextetChar (a / 4), sextetChar ((a % 4) * 16 + b / 16),
        sextetChar ((b % 16) * 4), '='] =
      if sextetChar ((b % 16) * 4) = '=' then
        [charSextet (sextetChar (a / 4)) * 4 +
          charSextet (sextetChar ((a % 4) * 16 + b / 16)) / 16]
      else
        [charSextet (sextetChar (a / 4)) * 4 +
          charSextet (sextetChar ((a % 4) * 16 + b / 16)) / 16,
         (charSextet (sextetChar ((a % 4) * 16 + b / 16)) % 16) * 16 +
          charSextet (sextetChar ((b % 16) * 4)) / 4] from rfl]
    rw [if_neg (sextetChar_ne_pad _ (by omega))]
    rw [charSextet_sextetChar _ (by omega), charSextet_sextetChar _ (by omega),
      charSextet_sextetChar _ (by omega)]
    congr 1
    · omega
    · congr 1
      omega
  | a :: b :: c :: rest, h => by
    have ha : a < 256 := h a (List.mem_cons_self _ _)
    have hb : b < 256 := h b (List.mem_cons_of_mem _ (List.mem_cons_self _ _))
    have hc : c < 256 := h c (List.mem_cons_of_mem _
      (List.mem_cons_of_mem _ (List.mem_cons_self _ _)))
    have hrest := b64_roundtrip rest (fun x hx => h x
      (List.mem_cons_of_mem _ (List.mem_cons_of_mem _ (List.mem_cons_of_mem _ hx))))
    show b64decode (sextetChar (a / 4) :: sextetChar ((a % 4) * 16 + b / 16) ::
      sextetChar ((b % 16) * 4 + c / 64) :: sextetChar (c % 64) ::
      b64encode rest) = a :: b :: c :: rest
    rw [show b64decode (sextetChar (a / 4) :: sextetChar ((a % 4) * 16 + b / 16) ::
        sextetChar ((b % 16) * 4 + c / 64) :: sextetChar (c % 64) ::
        b64encode rest) =
      if sextetChar ((b % 16) * 4 + c / 64) = '=' then
        [charSextet (sextetChar (a / 4)) * 4 +
          charSextet (sextetChar ((a % 4) * 16 + b / 16)) / 16]
      else if sextetChar (c % 64) = '=' then
        [charSextet (sextetChar (a / 4)) * 4 +
          charSextet (sextetChar ((a % 4) * 16 + b / 16)) / 16,
         (charSextet (sextetChar ((a % 4) * 16 + b / 16)) % 16) * 16 +
          charSextet (sextetChar ((b % 16) * 4 + c / 64)) / 4]
      else
        (charSextet (sextetChar (a / 4)) * 4 +
          charSextet (sextetChar ((a % 4) * 16 + b / 16)) / 16) ::
          ((charSextet (sextetChar ((a % 4) * 16 + b / 16)) % 16) * 16 +
            charSextet (sextetChar ((b % 16) * 4 + c / 64)) / 4) ::
          ((charSextet (sextetChar ((b % 16) * 4 + c / 64)) % 4) * 64 +
            charSextet (sextetChar (c % 64))) :: b64decode (b64encode rest)
      from rfl]
    rw [if_neg (sextetChar_ne_pad _ (by omega)),
      if_neg (sextetChar_ne_pad _ (by omega))]
    rw [charSextet_sextetChar _ (by omega), charSextet_sextetChar _ (by omega),
      charSextet_sextetChar _ (by omega), charSextet_sextetChar _ (by omega)]
    rw [hrest]
    congr 1
    · omega
    congr 1
    · omega
    congr 1
    omega

/-! ## Blockchain service: verifiable credentials
Embedding of `VerifiableCredential.create_credential` /
`verify_credential` / `_sign_credential` / `_verify_signature`
(`src/backend/services/blockchain_service.py`).  A credential is an
association list whose values are strings, string lists, or string-valued
objects (the shapes that occur); `json.dumps(..., sort_keys=True,
separators=(',', ':'))` is modelled by sorting every object's keys and
serialising with the compact separators.  The third-party RSA-PSS
primitives of the `cryptography` package are abstract `sign`/`verify`
parameters; their round-trip correctness (a library guarantee) is a
hypothesis of the theorem. -/

inductive JVal where
  | s (v : String)
  | ls (v : List String)
  | obj (kvs : List (String × String))
deriving Repr, DecidableEq

/-- Stable ascending insertion by key (Python's `sorted` on dict keys). -/
def insertKey {α : Type} (x : String × α) :
    List (String × α) → List (String × α)
  | [] => [x]
  | y :: t => if x.1 ≤ y.1 then x :: y :: t else y :: insertKey x t

def sortKey {α : Type} : List (String × α) → List (String × α)
  | [] => []
  | x :: t => insertKey x (sortKey t)

/-- JSON string-character escaping as in `json.dumps`. -/
def escChar (c : Char) : List Char :=
  if c = '"' then ['\\', '"']
  else if c = '\\' then ['\\', '\\']
  else if c = '\n' then ['\\', 'n']
  else if c = '\t' then ['\\', 't']
  else if c = '\r' then ['\\', 'r']
  else if c.toNat < 32 then
    ['\\', 'u', '0', '0', Nat.digitChar (c.toNat / 16), Nat.digitChar (c.toNat % 16)]
  else [c]

def jsonStr (s : String) : List Char :=
  '"' :: s.toList.foldr (fun c acc => escChar c ++ acc) ['"']

def joinComma : List (List Char) → List Char
  | [] => []
  | [x] => x
  | x :: xs => x ++ ',' :: joinComma xs

def serStrObj (kvs : List (String × String)) : List Char :=
  '{' :: joinComma ((sortKey kvs).map
    (fun kv => jsonStr kv.1 ++ ':' :: jsonStr kv.2)) ++ ['}']

def serJVal : JVal → List Char
  | JVal.s v => jsonStr v
  | JVal.ls vs => '[' :: joinComma (vs.map jsonStr) ++ [']']
  | JVal.obj kvs => serStrObj kvs

/-- `json.dumps(credential, sort_keys=True, separators=(',', ':'))`. -/
def canonicalJson (cred : List (String × JVal)) : List Char :=
  '{' :: joinComma ((sortKey cred).map
    (fun kv => jsonStr kv.1 ++ ':' :: serJVal kv.2)) ++ ['}']

def lookupJ (kvs : List (String × JVal)) (k : String) : Option JVal :=
  (kvs.find? (fun kv => kv.1 == k)).map Prod.snd

def lookupS (kvs : List (String × String)) (k : String) : Option String :=
  (kvs.find? (fun kv => kv.1 == k)).map Prod.snd

/-- `VerifiableCredential._sign_credential`: sign the canonical JSON and
base64-encode the signature. -/
def sign_credential (sign : String → List Char → List Nat)
    (cred : List (String × JVal)) (private_key_pem : String) : List Char :=
  b64encode (sign private_key_pem (canonicalJson cred))

/-- `VerifiableCredential.create_credential`. -/
def create_credential (sign : String → List Char → List Nat)
    (issuer subject : String) (claims : List (String × String))
    (issuanceDate expirationDate proofCreated : String)
    (private_key : String) : List (String × JVal) :=
  let credential : List (String × JVal) :=
    [("@context", JVal.ls ["https://www.w3.org/2018/credentials/v1",
        "https://univo.app/credentials/v1"]),
     ("type", JVal.ls ["VerifiableCredential"]),
     ("issuer", JVal.s issuer),
     ("issuanceDate", JVal.s issuanceDate),
     ("expirationDate", JVal.s expirationDate),
     ("credentialSubject", JVal.obj (("id", subject) :: claims))]
  let signature := sign_credential sign credential private_key
  credential ++
    [("proof", JVal.obj
      [("type", "RsaSignature2018"),
       ("created", proofCreated),
       ("verificationMethod", issuer ++ "#keys-1"),
       ("proofPurpose", "assertionMethod"),
       ("jws", String.mk signature)])]

/-- `VerifiableCredential._verify_signature`: base64-decode the `jws` and
check it against the canonical JSON. -/
def verify_signature (verify : String → List Nat → List Char → Bool)
    (cred : List (String × JVal)) (signature : String)
    (public_key_pem : String) : Bool :=
  verify public_key_pem (b64decode signature.toList) (canonicalJson cred)

/-- `VerifiableCredential.verify_credential`: extract the proof's `jws`,
delete the `proof` field from a copy (a missing key raises and yields
`False`), and verify the signature over the rest. -/
def verify_credential (verify : String → List Nat → List Char → Bool)
    (credential : List (String × JVal)) (public_key : String) : Bool :=
  match lookupJ credential "proof" with
  | some (JVal.obj proof) =>
    let signature := (lookupS proof "jws").getD ""
    let credential_copy := credential.filter (fun kv => !(kv.1 == "proof"))
    verify_signature verify credential_copy signature public_key
  | _ => false

/-- C2: for every key pair whose RSA-PSS `sign`/`verify` round-trips (the
`cryptography` library's guarantee for a key pair from `create_identity`)
and every issuer, subject and claims dictionary, a credential produced by
`create_credential` with the private key is accepted by
`verify_credential` with the matching public key: deleting the `proof`
field restores exactly the signed payload, whose canonical sorted-key JSON
verifies against the base64-decoded `jws`. -/
theorem create_verify_credential_roundtrip
    (sign : String → List Char → List Nat)
    (verify : String → List Nat → List Char → Bool)
    (private_key public_key : String)
    (hcorrect : ∀ msg, verify public_key (sign private_key msg) msg = true)
    (hbytes : ∀ msg, ∀ b ∈ sign private_key msg, b < 256)
    (issuer subject : String) (claims : List (String × String))
    (issuanceDate expirationDate proofCreated : String) :
    verify_credential verify
      (create_credential sign issuer subject claims issuanceDate
        expirationDate proofCreated private_key) public_key = true := by
  set cred0 : List (String × JVal) :=
    [("@context", JVal.ls ["https://www.w3.org/2018/credentials/v1",
        "https://univo.app/credentials/v1"]),
     ("type", JVal.ls ["VerifiableCredential"]),
     ("issuer", JVal.s issuer),
     ("issuanceDate", JVal.s issuanceDate),
     ("expirationDate", JVal.s expirationDate),
     ("credentialSubject", JVal.obj (("id", subject) :: claims))] with hcred0
  have hfull : create_credential sign issuer subject claims issuanceDate
      expirationDate proofCreated private_key =
    cred0 ++ [("proof", JVal.obj
      [("type", "RsaSignature2018"),
       ("created", proofCreated),
       ("verificationMethod", issuer ++ "#keys-1"),
       ("proofPurpose", "assertionMethod"),
       ("jws", String.mk (sign_credential sign cred0 private_key))])] := rfl
  have hv : verify_credential verify (cred0 ++ [("proof", JVal.obj
      [("type", "RsaSignature2018"),
       ("created", proofCreated),
       ("verificationMethod", issuer ++ "#keys-1"),
       ("proofPurpose", "assertionMethod"),
       ("jws", String.mk (sign_credential sign cred0 private_key))])])
      public_key =
      verify_signature verify cred0
        (String.mk (sign_credential sign cred0 private_key)) public_key := by
    rw [hcred0]
    rfl
  rw [hfull, hv, verify_signature]
  have hstr : (String.mk (sign_credential sign cred0 private_key)).toList =
      sign_credential sign cred0 private_key := rfl
  rw [hstr, sign_credential,
    b64_roundtrip (sign private_key (canonicalJson cred0))
      (hbytes (canonicalJson cred0))]
  exact hcorrect (canonicalJson cred0)

/-- Witness for C2 with a concrete toy signature scheme satisfying the
round-trip hypothesis (signature = one byte, the message length mod 256)
and concrete credential data. -/
theorem create_verify_credential_roundtrip_witness :
    verify_credential
      (fun _ sig msg => sig == [msg.length % 256])
      (create_credential (fun _ msg => [msg.length % 256])
        "did:univo:0xissuer" "did:univo:0xsubject"
        [("type", "MeetingAttendance")] "2025-01-01T00:00:00Z"
        "2026-01-01T00:00:00Z" "2025-01-01T00:00:00Z" "PRIVPEM")
      "PUBPEM" = true :=
  create_verify_credential_roundtrip
    (fun _ msg => [msg.length % 256])
    (fun _ sig msg => sig == [msg.length % 256])
    "PRIVPEM" "PUBPEM"
    (fun msg => by simp)
    (fun msg b hb => by
      rcases List.mem_singleton.1 hb with rfl
      exact Nat.mod_lt _ (by omega))
    "did:univo:0xissuer" "did:univo:0xsubject"
    [("type", "MeetingAttendance")] "2025-01-01T00:00:00Z"
    "2026-01-01T00:00:00Z" "2025-01-01T00:00:00Z"

end Univo
